import Mathlib

/-!
Shallow embedding of `pcsx2/CDVD/ChdFileReader.cpp` (the CHD disc-image
reader core): chunk addressing, chunk reads, TOC parsing, parent-chain
resolution with the process-wide header cache, and precaching with
progress/cancellation.  Machine integers are modelled as `Nat`/`Int`;
the libchdr engine and the filesystem are modelled as explicit
environments of pure functions.
-/

/-- Constant `MAX_PARENTS` from ChdFileReader.cpp: the hard cap on parent-chain
recursion depth. -/
def MAX_PARENTS : Nat := 32

/-- Structure `ThreadedFileReader::Chunk`: a chunk descriptor.  `chunkID = -1` is the
end-of-file sentinel, so the id is an `Int`. -/
structure Chunk where
  chunkID : Int
  offset : Nat
  length : Nat
deriving Repr, DecidableEq

/-- Function `ChdFileReader::ChunkForOffset`, parameterised by the reader state
`file_size` and `hunk_size`.  The C++ zero-initialises the chunk and only
fills the fields the branch assigns. -/
def ChunkForOffset (file_size hunk_size : Nat) (offset : Nat) : Chunk :=
  if offset ≥ file_size then
    { chunkID := -1, offset := 0, length := 0 }
  else
    { chunkID := ((offset / hunk_size : Nat) : Int),
      length := hunk_size,
      offset := (offset / hunk_size) * hunk_size }

/-- Function `ChdFileReader::ReadChunk`, parameterised by the reader state
`hunk_size` and the engine outcome `chdRead` (`true` when `chd_read`
returns `CHDERR_NONE` for that hunk id).  Returns `-1` for a negative id,
`0` when the engine read fails, and `hunk_size` on success. -/
def ReadChunk (chdRead : Nat → Bool) (hunk_size : Nat) (chunkID : Int) : Int :=
  if chunkID < 0 then
    -1
  else if chdRead chunkID.toNat then
    (hunk_size : Int)
  else
    0

/-- One parsed track-metadata record: the fields `sscanf` extracts that the
reader goes on to use (`type`/`subtype` strings are only logged). -/
structure TrackRecord where
  track : Nat
  frames : Nat
  pregap_frames : Nat
  postgap_frames : Nat
deriving Repr, DecidableEq

/-- The metadata table entry found at one search index.  `v2 none` /
`v1 none` model a record that is present under that tag but whose
`sscanf` does not yield the expected field count (8 for
`CDROM_TRACK_METADATA2_FORMAT`, 4 for `CDROM_TRACK_METADATA_FORMAT`);
a `v1` record has no gap fields, so its gaps stay `0`.  The end of the
list models `chd_get_metadata` failing under both tags ("no more
records"). -/
inductive MetaEntry where
  | v2 (parsed : Option TrackRecord)
  | v1 (parsed : Option (Nat × Nat))
deriving Repr, DecidableEq

/-- The record the loop body of `ChdFileReader::ParseTOC` works with after
the two-generation parse step, when that step does not fail:
`v1` records leave `pregap_frames`/`postgap_frames` at `0`. -/
def MetaEntry.record : MetaEntry → Option TrackRecord
  | .v2 r => r
  | .v1 (some (t, f)) =>
      some { track := t, frames := f, pregap_frames := 0, postgap_frames := 0 }
  | .v1 none => none

/-- The loop of `ChdFileReader::ParseTOC`: `total` is `total_frames`,
`maxF` is `max_found_track` (initially `-1`).  A present-but-malformed
record returns `none` (the C++ `return false`); a record with
`track_num != 1` is skipped; at the end of the table the function fails
exactly when `max_found_track < 0`. -/
def parseTOCLoop : List MetaEntry → Nat → Int → Option Nat
  | [], total, maxF => if maxF < 0 then none else some total
  | e :: rest, total, maxF =>
      match e.record with
      | none => none
      | some r =>
          if r.track ≠ 1 then
            parseTOCLoop rest total maxF
          else
            parseTOCLoop rest
              (total + r.pregap_frames + r.frames + r.postgap_frames)
              (max maxF (r.track : Int))

/-- Function `ChdFileReader::ParseTOC` over the metadata table: `some frames` when
the parse succeeds, `none` when it returns `false`. -/
def ParseTOC (table : List MetaEntry) : Option Nat :=
  parseTOCLoop table 0 (-1)

/-- The size computation at the end of `ChdFileReader::Open2`: the TOC
frame count times `unitbytes` when `ParseTOC` succeeds, else the
header-derived estimate `unitbytes * unitcount`. -/
def Open2FileSize (table : List MetaEntry) (unitbytes unitcount : Nat) : Nat :=
  match ParseTOC table with
  | some total_frames => total_frames * unitbytes
  | none => unitbytes * unitcount

/-- Function `ChdFileReader::Open2` after the CHD handle itself opened: it always
returns `true`; a TOC parse failure only degrades the size estimate. -/
def Open2Result (table : List MetaEntry) (unitbytes unitcount : Nat) :
    Bool × Nat :=
  (true, Open2FileSize table unitbytes unitcount)

/-- An entry is "good" when its generation parse succeeds. -/
def MetaEntry.good (e : MetaEntry) : Bool :=
  e.record.isSome

/-- An entry is malformed (present but with the wrong field count). -/
def MetaEntry.corrupt (e : MetaEntry) : Bool :=
  e.record.isNone

/-- Whether some entry of the table is a well-formed track-1 record. -/
def hasTrack1 (table : List MetaEntry) : Bool :=
  table.any fun e =>
    match e.record with
    | some r => r.track == 1
    | none => false

/-- The spec's description of the logical size sum: over exactly the
track-1 records, `pregap + frames + postgap`. -/
def track1Sum (table : List MetaEntry) : Nat :=
  (table.map fun e =>
    match e.record with
    | some r =>
        if r.track = 1 then r.pregap_frames + r.frames + r.postgap_frames
        else 0
    | none => 0).sum

/-- C1: the sentinel appears exactly at or past `file_size`; below it the
chunk is the uniform full-size hunk containing the offset. -/
theorem C1_chunk_for_offset (file_size hunk_size o : Nat) :
    ((ChunkForOffset file_size hunk_size o).chunkID = -1 ↔ o ≥ file_size) ∧
    (o < file_size →
      (ChunkForOffset file_size hunk_size o).chunkID = ((o / hunk_size : Nat) : Int) ∧
      (ChunkForOffset file_size hunk_size o).length = hunk_size ∧
      ((ChunkForOffset file_size hunk_size o).offset : Int) =
        (ChunkForOffset file_size hunk_size o).chunkID * hunk_size) := by
  by_cases h : o ≥ file_size
  · simp [ChunkForOffset, h]
  · constructor
    · simp only [ChunkForOffset, if_neg h]
      constructor
      · intro hc
        have hnn := Int.natCast_nonneg (o / hunk_size)
        omega
      · intro hle
        exact absurd hle h
    · intro _
      refine ⟨?_, ?_, ?_⟩ <;> simp only [ChunkForOffset, if_neg h]
      push_cast
      ring

/-- C1 witness: concrete evaluation at `file_size = 10`, `hunk_size = 4`,
`o = 7`. -/
theorem C1_chunk_for_offset_witness :
    7 < 10 ∧
    ((ChunkForOffset 10 4 7).chunkID = ((7 / 4 : Nat) : Int) ∧
      (ChunkForOffset 10 4 7).length = 4 ∧
      ((ChunkForOffset 10 4 7).offset : Int) =
        (ChunkForOffset 10 4 7).chunkID * 4) :=
  ⟨by decide, (C1_chunk_for_offset 10 4 7).2 (by decide)⟩

/-- C2 counterexample: the claim says a negative (end-marker) id returns an
explicit no-op result of `0` bytes; `ReadChunk` in fact returns `-1` at
`chunkID = -1`, whatever the engine would do. -/
theorem C2_read_chunk_counterexample :
    ReadChunk (fun _ => true) 2448 (-1) = -1 ∧
    ReadChunk (fun _ => true) 2448 (-1) ≠ 0 := by
  constructor <;> decide

/-- C2 amended: a negative (end-marker) id returns `-1` without invoking
the engine; a failed engine decompression of a valid id returns `0`,
which is distinct from the success-path return `hunk_size` whenever
`hunk_size` is positive; all paths return a value rather than throwing. -/
theorem C2_read_chunk (chdRead : Nat → Bool) (hunk_size : Nat) (chunkID : Int)
    (hpos : 0 < hunk_size) :
    (chunkID < 0 → ReadChunk chdRead hunk_size chunkID = -1) ∧
    (0 ≤ chunkID → chdRead chunkID.toNat = false →
      ReadChunk chdRead hunk_size chunkID = 0) ∧
    (0 ≤ chunkID → chdRead chunkID.toNat = true →
      ReadChunk chdRead hunk_size chunkID = (hunk_size : Int)) ∧
    (0 : Int) ≠ (hunk_size : Int) := by
  refine ⟨?_, ?_, ?_, ?_⟩
  · intro h; simp [ReadChunk, h]
  · intro h hf; simp [ReadChunk, not_lt.mpr h, hf]
  · intro h ht; simp [ReadChunk, not_lt.mpr h, ht]
  · omega

/-- C2 amended witness: concrete evaluation with `hunk_size = 2448`,
failing engine read at id `3`. -/
theorem C2_read_chunk_witness :
    (0 : Nat) < 2448 ∧
    ((0 : Int) ≤ 3 → (fun _ => false : Nat → Bool) (3 : Int).toNat = false →
      ReadChunk (fun _ => false) 2448 3 = 0) :=
  ⟨by decide, (C2_read_chunk (fun _ => false) 2448 3 (by decide)).2.1⟩

/-- A present-but-malformed record anywhere in the table makes the parse
loop fail, whatever the accumulator state. -/
lemma parseTOCLoop_corrupt :
    ∀ (l : List MetaEntry) (t : Nat) (m : Int),
      l.any MetaEntry.corrupt = true → parseTOCLoop l t m = none := by
  intro l
  induction l with
  | nil =>
    intro t m h
    simp at h
  | cons e rest ih =>
    intro t m h
    match he : e.record with
    | none =>
      simp [parseTOCLoop, he]
    | some r =>
      have hc : MetaEntry.corrupt e = false := by
        simp [MetaEntry.corrupt, he]
      have hrest : rest.any MetaEntry.corrupt = true := by
        simpa [List.any_cons, hc] using h
      simp only [parseTOCLoop, he]
      split
      · exact ih _ _ hrest
      · exact ih _ _ hrest

/-- Unfolding `track1Sum` over the head of the table. -/
lemma track1Sum_cons (e : MetaEntry) (rest : List MetaEntry) :
    track1Sum (e :: rest) =
      (match e.record with
        | some r =>
            if r.track = 1 then r.pregap_frames + r.frames + r.postgap_frames
            else 0
        | none => 0) + track1Sum rest := by
  simp [track1Sum]

/-- On an all-well-formed table, the loop returns the accumulator plus the
track-1 sum, provided a track-1 record has been or will be seen. -/
lemma parseTOCLoop_good :
    ∀ (l : List MetaEntry) (t : Nat) (m : Int),
      (∀ e ∈ l, MetaEntry.good e = true) →
      (0 ≤ m ∨ hasTrack1 l = true) →
      parseTOCLoop l t m = some (t + track1Sum l) := by
  intro l
  induction l with
  | nil =>
    intro t m _ hm
    rcases hm with hm | hm
    · simp [parseTOCLoop, track1Sum, not_lt.mpr hm]
    · simp [hasTrack1] at hm
  | cons e rest ih =>
    intro t m hg hm
    have hge : MetaEntry.good e = true := hg e (by simp)
    obtain ⟨r, he⟩ : ∃ r, e.record = some r := by
      simpa [MetaEntry.good, Option.isSome_iff_exists] using hge
    have hgrest : ∀ x ∈ rest, MetaEntry.good x = true := by
      intro x hx
      exact hg x (by simp [hx])
    by_cases ht : r.track = 1
    · have hmax : (0 : Int) ≤ max m (r.track : Int) := by
        have : (0 : Int) ≤ (r.track : Int) := Int.natCast_nonneg _
        exact le_trans this (le_max_right _ _)
      have hstep : parseTOCLoop (e :: rest) t m =
          parseTOCLoop rest
            (t + r.pregap_frames + r.frames + r.postgap_frames)
            (max m (r.track : Int)) := by
        simp [parseTOCLoop, he, ht]
      rw [hstep, ih _ _ hgrest (Or.inl hmax), track1Sum_cons, he]
      simp only [ht, if_pos]
      congr 1
      omega
    · have hh1 : hasTrack1 (e :: rest) = hasTrack1 rest := by
        simp [hasTrack1, he, ht]
      have hstep : parseTOCLoop (e :: rest) t m = parseTOCLoop rest t m := by
        simp [parseTOCLoop, he, ht]
      have hm' : 0 ≤ m ∨ hasTrack1 rest = true := by
        rcases hm with hm | hm
        · exact Or.inl hm
        · exact Or.inr (hh1 ▸ hm)
      rw [hstep, ih _ _ hgrest hm', track1Sum_cons, he]
      simp [ht]

/-- On an all-well-formed table with no track-1 record, the loop fails
when `max_found_track` is still negative. -/
lemma parseTOCLoop_noTrack1 :
    ∀ (l : List MetaEntry) (t : Nat) (m : Int),
      (∀ e ∈ l, MetaEntry.good e = true) →
      hasTrack1 l = false → m < 0 →
      parseTOCLoop l t m = none := by
  intro l
  induction l with
  | nil =>
    intro t m _ _ hm
    simp [parseTOCLoop, hm]
  | cons e rest ih =>
    intro t m hg h1 hm
    have hge : MetaEntry.good e = true := hg e (by simp)
    obtain ⟨r, he⟩ : ∃ r, e.record = some r := by
      simpa [MetaEntry.good, Option.isSome_iff_exists] using hge
    have hgrest : ∀ x ∈ rest, MetaEntry.good x = true := by
      intro x hx
      exact hg x (by simp [hx])
    have ht : ¬ (r.track = 1) := by
      intro ht
      have : hasTrack1 (e :: rest) = true := by
        simp [hasTrack1, he, ht]
      simp [this] at h1
    have h1rest : hasTrack1 rest = false := by
      have := h1
      simpa [hasTrack1, he, ht] using this
    have hstep : parseTOCLoop (e :: rest) t m = parseTOCLoop rest t m := by
      simp [parseTOCLoop, he, ht]
    rw [hstep]
    exact ih _ _ hgrest h1rest hm

/-- C3: a record that is present but malformed is fatal to the TOC parse
(`ParseTOC = none`), so `Open2` falls back to the header estimate rather
than a partial sum; by contrast, ending the table at that point instead
("no more records") parses the prefix successfully — the two conditions
are behaviourally distinct. -/
theorem C3_corrupt_metadata_fatal (pre post : List MetaEntry) (bad : MetaEntry)
    (unitbytes unitcount : Nat)
    (hbad : MetaEntry.corrupt bad = true)
    (hpre : ∀ e ∈ pre, MetaEntry.good e = true)
    (ht1 : hasTrack1 pre = true) :
    ParseTOC (pre ++ bad :: post) = none ∧
    Open2FileSize (pre ++ bad :: post) unitbytes unitcount =
      unitbytes * unitcount ∧
    ParseTOC pre = some (track1Sum pre) := by
  have hc : (pre ++ bad :: post).any MetaEntry.corrupt = true := by
    simp [List.any_append, hbad]
  have hnone : ParseTOC (pre ++ bad :: post) = none :=
    parseTOCLoop_corrupt _ 0 (-1) hc
  refine ⟨hnone, ?_, ?_⟩
  · simp [Open2FileSize, hnone]
  · simpa [ParseTOC] using
      parseTOCLoop_good pre 0 (-1) hpre (Or.inr ht1)

/-- C3 witness: a valid 80-frame track-1 record followed by a malformed
v2 record at index 1. -/
theorem C3_corrupt_metadata_fatal_witness :
    (MetaEntry.corrupt (.v2 none) = true ∧
      (∀ e ∈ [MetaEntry.v2 (some ⟨1, 80, 0, 0⟩)], MetaEntry.good e = true) ∧
      hasTrack1 [MetaEntry.v2 (some ⟨1, 80, 0, 0⟩)] = true) ∧
    (ParseTOC [MetaEntry.v2 (some ⟨1, 80, 0, 0⟩), .v2 none] = none ∧
      Open2FileSize [MetaEntry.v2 (some ⟨1, 80, 0, 0⟩), .v2 none] 2448 100 =
        2448 * 100 ∧
      ParseTOC [MetaEntry.v2 (some ⟨1, 80, 0, 0⟩)] =
        some (track1Sum [MetaEntry.v2 (some ⟨1, 80, 0, 0⟩)])) :=
  ⟨⟨by decide, by decide, by decide⟩,
    C3_corrupt_metadata_fatal [MetaEntry.v2 (some ⟨1, 80, 0, 0⟩)] []
      (.v2 none) 2448 100 (by decide) (by decide) (by decide)⟩

/-- C4: with valid track metadata, the logical size is the track-1 sum of
`pregap + frames + postgap` times the unit byte size; records with other
track numbers contribute nothing, and the header `unitcount` is unused. -/
theorem C4_track1_size (table : List MetaEntry) (unitbytes unitcount : Nat)
    (hg : ∀ e ∈ table, MetaEntry.good e = true)
    (ht1 : hasTrack1 table = true) :
    ParseTOC table = some (track1Sum table) ∧
    Open2FileSize table unitbytes unitcount = track1Sum table * unitbytes := by
  have hp : ParseTOC table = some (track1Sum table) := by
    simpa [ParseTOC] using parseTOCLoop_good table 0 (-1) hg (Or.inr ht1)
  exact ⟨hp, by simp [Open2FileSize, hp]⟩

/-- C4 witness: header advertises `unitcount = 100` but track-1 metadata
sums to 80 frames (70 + 5 pregap + 5 postgap); a track-2 record is
present and ignored; the size is `80 * unitbytes`. -/
theorem C4_track1_size_witness :
    ((∀ e ∈ [MetaEntry.v2 (some ⟨1, 70, 5, 5⟩), .v2 (some ⟨2, 30, 0, 0⟩)],
        MetaEntry.good e = true) ∧
      hasTrack1 [MetaEntry.v2 (some ⟨1, 70, 5, 5⟩), .v2 (some ⟨2, 30, 0, 0⟩)] =
        true) ∧
    (ParseTOC [MetaEntry.v2 (some ⟨1, 70, 5, 5⟩), .v2 (some ⟨2, 30, 0, 0⟩)] =
        some (track1Sum
          [MetaEntry.v2 (some ⟨1, 70, 5, 5⟩), .v2 (some ⟨2, 30, 0, 0⟩)]) ∧
      Open2FileSize [MetaEntry.v2 (some ⟨1, 70, 5, 5⟩), .v2 (some ⟨2, 30, 0, 0⟩)]
          2448 100 =
        track1Sum [MetaEntry.v2 (some ⟨1, 70, 5, 5⟩), .v2 (some ⟨2, 30, 0, 0⟩)] *
          2448) :=
  ⟨⟨by decide, by decide⟩,
    C4_track1_size [MetaEntry.v2 (some ⟨1, 70, 5, 5⟩), .v2 (some ⟨2, 30, 0, 0⟩)]
      2448 100 (by decide) (by decide)⟩

/-- C5: with zero track-1 records (well-formed table, possibly empty) the
TOC parse reports not-found rather than a zero frame count, and the open
still succeeds with the header-derived estimate
`unitbytes * unitcount`. -/
theorem C5_no_track1_fallback (table : List MetaEntry)
    (unitbytes unitcount : Nat)
    (hg : ∀ e ∈ table, MetaEntry.good e = true)
    (h1 : hasTrack1 table = false) :
    ParseTOC table = none ∧
    Open2Result table unitbytes unitcount = (true, unitbytes * unitcount) := by
  have hp : ParseTOC table = none :=
    parseTOCLoop_noTrack1 table 0 (-1) hg h1 (by norm_num)
  exact ⟨hp, by simp [Open2Result, Open2FileSize, hp]⟩

/-- C5 witness: a table holding only a track-2 record — no track-1
records — with `unitbytes = 2448`, `unitcount = 100`. -/
theorem C5_no_track1_fallback_witness :
    ((∀ e ∈ [MetaEntry.v2 (some ⟨2, 30, 0, 0⟩)], MetaEntry.good e = true) ∧
      hasTrack1 [MetaEntry.v2 (some ⟨2, 30, 0, 0⟩)] = false) ∧
    (ParseTOC [MetaEntry.v2 (some ⟨2, 30, 0, 0⟩)] = none ∧
      Open2Result [MetaEntry.v2 (some ⟨2, 30, 0, 0⟩)] 2448 100 =
        (true, 2448 * 100)) :=
  ⟨⟨by decide, by decide⟩,
    C5_no_track1_fallback [MetaEntry.v2 (some ⟨2, 30, 0, 0⟩)] 2448 100
      (by decide) (by decide)⟩

/-- An abstract file path, split as the reader uses it:
`Path::GetDirectory`, the file name, and `Path::GetExtension`. -/
structure FPath where
  dir : String
  name : String
  ext : String
deriving Repr, DecidableEq

/-- A CHD header, abstracted to the content it carries; parent matching
(`chd_is_matching_parent`) and staleness are decided by the environment,
so a single opaque token field suffices. -/
structure ChdHeader where
  token : Nat
deriving Repr, DecidableEq

/-- Outcome of `chd_open_core_file`. -/
inductive ChdOpenResult where
  | ok (chd : Nat)
  | requiresParent
  | errOther (msg : String)
deriving Repr, DecidableEq

/-- The libchdr/filesystem environment `OpenCHD` runs against: engine open
(with or without a parent handle), header read, managed file open
success, parent matching, and directory enumeration. -/
structure ChdEnv where
  chdOpen : FPath → Option Nat → ChdOpenResult
  readHeaderFile : FPath → Option ChdHeader
  openFile : FPath → Bool
  isMatchingParent : ChdHeader → ChdHeader → Bool
  findFiles : String → List FPath

/-- Global `s_chd_hash_cache`: the process-wide (filename, header) list. -/
abbrev HeaderCache := List (FPath × ChdHeader)

/-- Predicate `StringUtil::compareNoCase` on directories. -/
def dirEqNoCase (a b : String) : Bool :=
  a.toLower == b.toLower

/-- Predicate `StringUtil::EndsWithNoCase(Path::GetExtension(name), "chd")`. -/
def extIsChd (e : String) : Bool :=
  e.toLower.endsWith "chd"

/-- The cache refresh step of the directory scan: `std::find_if` on the
exact file name, `memcpy` over the found entry's header, else
`emplace_back`. -/
def updateCache : HeaderCache → FPath → ChdHeader → HeaderCache
  | [], p, h => [(p, h)]
  | e :: rest, p, h =>
      if e.1 = p then (p, h) :: rest else e :: updateCache rest p h

/-- Result of one `OpenCHD` call: the handle (if any), the cache state it
leaves behind, and the error message it reports on failure (the C++
writes through a shared `Error*`; on success the slot is not read). -/
structure OpenCHDResult where
  chd : Option Nat
  cache : HeaderCache
  err : Option String
deriving Repr, DecidableEq

/-- The tail of `OpenCHD` once a parent handle has been obtained: re-open
the original file against the parent; any failure here is final. -/
def openWithParent (env : ChdEnv) (path : FPath) (parent : Nat)
    (cache : HeaderCache) : OpenCHDResult :=
  match env.chdOpen path (some parent) with
  | .ok c => ⟨some c, cache, none⟩
  | .requiresParent => ⟨none, cache, some "requires parent"⟩
  | .errOther m => ⟨none, cache, some m⟩

mutual

/-- Function `OpenCHD` from ChdFileReader.cpp.  `fuel` is the termination device of
the shallow embedding: the wrapper `OpenCHD` supplies
`MAX_PARENTS - level`, which the `MAX_PARENTS` guard (checked first,
exactly as in the source) keeps from ever reaching the `fuel = 0`
branch. -/
def OpenCHDF (env : ChdEnv) (fuel : Nat) (path : FPath) (level : Nat)
    (cache : HeaderCache) : OpenCHDResult :=
  match env.chdOpen path none with
  | .ok c => ⟨some c, cache, none⟩
  | .errOther m => ⟨none, cache, some m⟩
  | .requiresParent =>
    if MAX_PARENTS ≤ level then
      ⟨none, cache, some "Too many parent files"⟩
    else
      match env.readHeaderFile path with
      | none => ⟨none, cache, some "failed to read header"⟩
      | some header =>
        match fuel with
        | 0 => ⟨none, cache, some "Too many parent files"⟩
        | fuel' + 1 =>
          match scanCacheF env fuel' header path.dir level cache cache with
          | (some parent, cache1) => openWithParent env path parent cache1
          | (none, cache1) =>
            match dirScanF env fuel' header level (env.findFiles path.dir)
                cache1 with
            | (some parent, cache2) => openWithParent env path parent cache2
            | (none, cache2) =>
                ⟨none, cache2,
                  some "Failed to find parent CHD, it must be in the same directory."⟩
termination_by (fuel, 1)

/-- Loop over `s_chd_hash_cache` in `OpenCHD`: `entries` is the list
still to be iterated, `cache` the full cache handed to any recursive
open.  Entries whose directory or token does not match are skipped; the
first entry that matches both is tried (fresh re-open, fresh header
re-read, re-verify, then recurse) and the loop `break`s regardless of
the outcome. -/
def scanCacheF (env : ChdEnv) (fuel : Nat) (header : ChdHeader) (dir : String)
    (level : Nat) (entries : List (FPath × ChdHeader)) (cache : HeaderCache) :
    Option Nat × HeaderCache :=
  match entries with
  | [] => (none, cache)
  | e :: rest =>
    if dirEqNoCase dir e.1.dir && env.isMatchingParent header e.2 then
      if env.openFile e.1 then
        match env.readHeaderFile e.1 with
        | some ph =>
          if env.isMatchingParent header ph then
            match OpenCHDF env fuel e.1 (level + 1) cache with
            | ⟨chd, cache1, _⟩ => (chd, cache1)
          else (none, cache)
        | none => (none, cache)
      else (none, cache)
    else scanCacheF env fuel header dir level rest cache
termination_by (fuel, entries.length + 2)

/-- The directory-scan loop of `OpenCHD` over `FindFiles` results: skip
non-`chd` extensions and unreadable candidates, refresh/insert every
readable candidate's header into the cache, and recurse into the first
matching candidate; continue with later files while no parent has been
obtained. -/
def dirScanF (env : ChdEnv) (fuel : Nat) (header : ChdHeader) (level : Nat)
    (files : List FPath) (cache : HeaderCache) : Option Nat × HeaderCache :=
  match files with
  | [] => (none, cache)
  | fd :: rest =>
    if extIsChd fd.ext then
      if env.openFile fd then
        match env.readHeaderFile fd with
        | some ph =>
          if env.isMatchingParent header ph then
            match OpenCHDF env fuel fd (level + 1) (updateCache cache fd ph) with
            | ⟨some c, cache1, _⟩ => (some c, cache1)
            | ⟨none, cache1, _⟩ => dirScanF env fuel header level rest cache1
          else dirScanF env fuel header level rest (updateCache cache fd ph)
        | none => dirScanF env fuel header level rest cache
      else dirScanF env fuel header level rest cache
    else dirScanF env fuel header level rest cache
termination_by (fuel, files.length + 2)

end

/-- Wrapper `OpenCHD(filename, fp, error, recursion_level)`: the fuel supplied
covers every level the `MAX_PARENTS` guard allows, so the artificial
`fuel = 0` branch is unreachable. -/
def OpenCHD (env : ChdEnv) (path : FPath) (level : Nat)
    (cache : HeaderCache) : OpenCHDResult :=
  OpenCHDF env (MAX_PARENTS - level) path level cache

/-- C6: when a CHD at recursion level `MAX_PARENTS` (or deeper) still
requires a parent, the open fails immediately with the "Too many parent
files" error to its caller — no header read, no cache scan, no further
recursion (the result depends on nothing but the failing open itself,
and the cache is left untouched). -/
theorem C6_too_many_parents (env : ChdEnv) (path : FPath) (level : Nat)
    (cache : HeaderCache)
    (hreq : env.chdOpen path none = .requiresParent)
    (hlev : MAX_PARENTS ≤ level) :
    OpenCHD env path level cache =
      ⟨none, cache, some "Too many parent files"⟩ := by
  rw [OpenCHD, OpenCHDF]
  simp [hreq, hlev]

/-- A concrete environment in which every parentless engine open demands a
parent: the deepest possible chain. -/
def envAllRequireParent : ChdEnv where
  chdOpen := fun _ _ => .requiresParent
  readHeaderFile := fun _ => some ⟨0⟩
  openFile := fun _ => true
  isMatchingParent := fun _ _ => true
  findFiles := fun _ => []

/-- C6 witness: at recursion level `MAX_PARENTS = 32` the open reports
"Too many parent files". -/
theorem C6_too_many_parents_witness :
    envAllRequireParent.chdOpen ⟨"d", "a", "chd"⟩ none = .requiresParent ∧
    MAX_PARENTS ≤ 32 ∧
    OpenCHD envAllRequireParent ⟨"d", "a", "chd"⟩ 32 [] =
      ⟨none, [], some "Too many parent files"⟩ :=
  ⟨rfl, by decide,
    C6_too_many_parents envAllRequireParent ⟨"d", "a", "chd"⟩ 32 [] rfl
      (by decide)⟩

/-- C7: the cache scan tries at most one candidate per resolution level.
A head entry whose directory and token both match is tried and the scan
stops — the result is the same as if no later entries existed, whether
or not the fresh re-read verifies or the recursive open succeeds; a head
entry failing either test is skipped. -/
theorem C7_cache_scan_first_candidate (env : ChdEnv) (fuel : Nat)
    (header : ChdHeader) (dir : String) (level : Nat)
    (e : FPath × ChdHeader) (rest : List (FPath × ChdHeader))
    (cache : HeaderCache) :
    ((dirEqNoCase dir e.1.dir && env.isMatchingParent header e.2) = true →
      scanCacheF env fuel header dir level (e :: rest) cache =
        scanCacheF env fuel header dir level [e] cache) ∧
    ((dirEqNoCase dir e.1.dir && env.isMatchingParent header e.2) = false →
      scanCacheF env fuel header dir level (e :: rest) cache =
        scanCacheF env fuel header dir level rest cache) := by
  constructor
  · intro hm
    rw [scanCacheF, hm]
    rw [scanCacheF, hm]
    rfl
  · intro hm
    rw [scanCacheF, hm]
    simp

/-- C7 witness: a matching head candidate whose fresh re-read fails to
verify; a second, perfectly good entry is nevertheless never tried. -/
theorem C7_cache_scan_first_candidate_witness :
    (dirEqNoCase "d" "d" &&
      envAllRequireParent.isMatchingParent ⟨0⟩ ⟨1⟩) = true ∧
    scanCacheF envAllRequireParent 0 ⟨0⟩ "d" 0
        [(⟨"d", "p1", "chd"⟩, ⟨1⟩), (⟨"d", "p2", "chd"⟩, ⟨2⟩)] [] =
      scanCacheF envAllRequireParent 0 ⟨0⟩ "d" 0
        [(⟨"d", "p1", "chd"⟩, ⟨1⟩)] [] :=
  ⟨by simp [dirEqNoCase, envAllRequireParent],
    (C7_cache_scan_first_candidate envAllRequireParent 0 ⟨0⟩ "d" 0
        (⟨"d", "p1", "chd"⟩, ⟨1⟩) [(⟨"d", "p2", "chd"⟩, ⟨2⟩)] []).1
      (by simp [dirEqNoCase, envAllRequireParent])⟩

/-- The paths keyed in the cache. -/
def cacheKeys (c : HeaderCache) : List FPath :=
  c.map Prod.fst

lemma cacheKeys_cons (e : FPath × ChdHeader) (rest : HeaderCache) :
    cacheKeys (e :: rest) = e.1 :: cacheKeys rest := rfl

/-- When the path is absent, the refresh step appends a fresh entry. -/
lemma updateCache_not_mem :
    ∀ (cache : HeaderCache) (p : FPath) (h : ChdHeader),
      p ∉ cacheKeys cache → updateCache cache p h = cache ++ [(p, h)] := by
  intro cache
  induction cache with
  | nil =>
    intro p h _
    rfl
  | cons e rest ih =>
    intro p h hp
    rw [cacheKeys_cons] at hp
    have h1 : ¬ (e.1 = p) := fun he => hp (by simp [he])
    have h2 : p ∉ cacheKeys rest := fun hm => hp (List.mem_cons_of_mem _ hm)
    simp [updateCache, h1, ih p h h2]

/-- When the path is present, the refresh step overwrites in place: the
key list is unchanged. -/
lemma updateCache_mem_keys :
    ∀ (cache : HeaderCache) (p : FPath) (h : ChdHeader),
      p ∈ cacheKeys cache →
      cacheKeys (updateCache cache p h) = cacheKeys cache := by
  intro cache
  induction cache with
  | nil =>
    intro p h hp
    simp [cacheKeys] at hp
  | cons e rest ih =>
    intro p h hp
    by_cases he : e.1 = p
    · simp [updateCache, he, cacheKeys_cons]
    · have hp' : p ∈ cacheKeys rest := by
        rw [cacheKeys_cons] at hp
        rcases List.mem_cons.mp hp with h1 | h1
        · exact absurd h1.symm he
        · exact h1
      simp [updateCache, he, cacheKeys_cons, ih p h hp']

/-- The refresh step preserves key uniqueness. -/
lemma updateCache_nodup (cache : HeaderCache) (p : FPath) (h : ChdHeader)
    (hnd : (cacheKeys cache).Nodup) :
    (cacheKeys (updateCache cache p h)).Nodup := by
  by_cases hp : p ∈ cacheKeys cache
  · rw [updateCache_mem_keys cache p h hp]
    exact hnd
  · rw [updateCache_not_mem cache p h hp]
    have hk : cacheKeys (cache ++ [(p, h)]) = cacheKeys cache ++ [p] := by
      simp [cacheKeys]
    rw [hk]
    simp [List.nodup_append, hnd, hp]

/-- The refresh step never removes an entry. -/
lemma updateCache_mem_mono (cache : HeaderCache) (p : FPath) (h : ChdHeader)
    (q : FPath) (hq : q ∈ cacheKeys cache) :
    q ∈ cacheKeys (updateCache cache p h) := by
  by_cases hp : p ∈ cacheKeys cache
  · rw [updateCache_mem_keys cache p h hp]
    exact hq
  · rw [updateCache_not_mem cache p h hp]
    have hk : cacheKeys (cache ++ [(p, h)]) = cacheKeys cache ++ [p] := by
      simp [cacheKeys]
    rw [hk]
    exact List.mem_append_left _ hq

/-- Cache states reachable from a starting state by zero or more
refresh/insert steps — the only writes the resolver ever performs. -/
inductive CacheEvolves : HeaderCache → HeaderCache → Prop
  | refl (c : HeaderCache) : CacheEvolves c c
  | step (c₁ c₂ : HeaderCache) (p : FPath) (h : ChdHeader) :
      CacheEvolves c₁ c₂ → CacheEvolves c₁ (updateCache c₂ p h)


lemma cacheEvolves_trans {a b c : HeaderCache}
    (hab : CacheEvolves a b) (hbc : CacheEvolves b c) : CacheEvolves a c := by
  induction hbc with
  | refl => exact hab
  | step c₂ p h hprev ih => exact .step _ _ p h ih

lemma cacheEvolves_nodup {c₁ c₂ : HeaderCache} (hev : CacheEvolves c₁ c₂)
    (hnd : (cacheKeys c₁).Nodup) : (cacheKeys c₂).Nodup := by
  induction hev with
  | refl => exact hnd
  | step c p h hprev ih => exact updateCache_nodup _ p h ih

lemma cacheEvolves_mem {c₁ c₂ : HeaderCache} (hev : CacheEvolves c₁ c₂)
    (q : FPath) (hq : q ∈ cacheKeys c₁) : q ∈ cacheKeys c₂ := by
  induction hev with
  | refl => exact hq
  | step c p h hprev ih => exact updateCache_mem_mono _ p h q ih

/-- Every cache state left behind by the resolver — at any fuel, from the
top-level open down through the cache scan and the directory scan — is
an evolution of the input cache by refresh/insert steps only. -/
lemma resolver_cache_evolves :
    ∀ fuel : Nat,
      (∀ (env : ChdEnv) (path : FPath) (level : Nat) (cache : HeaderCache),
        CacheEvolves cache (OpenCHDF env fuel path level cache).cache) ∧
      (∀ (env : ChdEnv) (header : ChdHeader) (dir : String) (level : Nat)
          (entries : List (FPath × ChdHeader)) (cache : HeaderCache),
        CacheEvolves cache
          (scanCacheF env fuel header dir level entries cache).2) ∧
      (∀ (env : ChdEnv) (header : ChdHeader) (level : Nat)
          (files : List FPath) (cache : HeaderCache),
        CacheEvolves cache (dirScanF env fuel header level files cache).2) := by
  intro fuel
  induction fuel using Nat.strong_induction_on with
  | _ fuel ih =>
    have hopen : ∀ (env : ChdEnv) (path : FPath) (level : Nat)
        (cache : HeaderCache),
        CacheEvolves cache (OpenCHDF env fuel path level cache).cache := by
      intro env path level cache
      rw [OpenCHDF]
      split
      · exact .refl _
      · exact .refl _
      · split
        · exact .refl _
        · split
          · exact .refl _
          · rename_i header hheader
            split
            · exact .refl _
            · rename_i fuel'
              have hscan :=
                (ih fuel' (Nat.lt_succ_self _)).2.1 env header path.dir level
                  cache cache
              have hdirall := (ih fuel' (Nat.lt_succ_self _)).2.2
              split
              · rename_i parent cache1 heq
                rw [heq] at hscan
                have hc : (openWithParent env path parent cache1).cache =
                    cache1 := by
                  rw [openWithParent]
                  cases env.chdOpen path (some parent) <;> rfl
                rw [hc]
                simpa using hscan
              · rename_i cache1 heq
                rw [heq] at hscan
                have hdir :=
                  hdirall env header level (env.findFiles path.dir) cache1
                split
                · rename_i parent cache2 heq2
                  rw [heq2] at hdir
                  have hc : (openWithParent env path parent cache2).cache =
                      cache2 := by
                    rw [openWithParent]
                    cases env.chdOpen path (some parent) <;> rfl
                  rw [hc]
                  exact cacheEvolves_trans (by simpa using hscan)
                    (by simpa using hdir)
                · rename_i cache2 heq2
                  rw [heq2] at hdir
                  show CacheEvolves cache cache2
                  exact cacheEvolves_trans (by simpa using hscan)
                    (by simpa using hdir)
    refine ⟨hopen, ?_, ?_⟩
    · intro env header dir level entries cache
      induction entries with
      | nil =>
        rw [scanCacheF]
        exact .refl _
      | cons e rest ihe =>
        rw [scanCacheF]
        split
        · split
          · split
            · rename_i ph hph
              split
              · split
                rename_i chd cache1 err heq
                have hop := hopen env e.1 (level + 1) cache
                rw [heq] at hop
                simpa using hop
              · exact .refl _
            · exact .refl _
          · exact .refl _
        · exact ihe
    · intro env header level files cache
      induction files generalizing cache with
      | nil =>
        rw [dirScanF]
        exact .refl _
      | cons fd rest ihf =>
        rw [dirScanF]
        split
        · split
          · split
            · rename_i ph hph
              have hstep : CacheEvolves cache (updateCache cache fd ph) :=
                .step _ _ fd ph (.refl _)
              split
              · have hop := hopen env fd (level + 1) (updateCache cache fd ph)
                split
                · rename_i c cache1 err heq
                  rw [heq] at hop
                  exact cacheEvolves_trans hstep (by simpa using hop)
                · rename_i cache1 err heq
                  rw [heq] at hop
                  exact cacheEvolves_trans
                    (cacheEvolves_trans hstep (by simpa using hop))
                    (ihf cache1)
              · exact cacheEvolves_trans hstep
                  (ihf (updateCache cache fd ph))
            · exact ihf cache
          · exact ihf cache
        · exact ihf cache

/-- C8: the cache keeps at most one entry per distinct path.  The refresh
step of the directory scan appends exactly when the path is absent and
overwrites in place (keys unchanged) when it is present; it preserves
key uniqueness and never removes an entry; and the whole directory-scan
step (recursive opens included) writes through this refresh step only,
so it too preserves uniqueness and never removes entries. -/
theorem C8_cache_invariant (cache : HeaderCache) (p : FPath)
    (h : ChdHeader) :
    (p ∉ cacheKeys cache → updateCache cache p h = cache ++ [(p, h)]) ∧
    (p ∈ cacheKeys cache →
      cacheKeys (updateCache cache p h) = cacheKeys cache) ∧
    ((cacheKeys cache).Nodup → (cacheKeys (updateCache cache p h)).Nodup) ∧
    (∀ q ∈ cacheKeys cache, q ∈ cacheKeys (updateCache cache p h)) ∧
    (∀ (env : ChdEnv) (fuel : Nat) (header : ChdHeader) (level : Nat)
        (files : List FPath),
      ((cacheKeys cache).Nodup →
        (cacheKeys (dirScanF env fuel header level files cache).2).Nodup) ∧
      (∀ q ∈ cacheKeys cache,
        q ∈ cacheKeys (dirScanF env fuel header level files cache).2)) := by
  refine ⟨updateCache_not_mem cache p h, updateCache_mem_keys cache p h,
    updateCache_nodup cache p h, updateCache_mem_mono cache p h, ?_⟩
  intro env fuel header level files
  have hev := (resolver_cache_evolves fuel).2.2 env header level files cache
  exact ⟨cacheEvolves_nodup hev, fun q hq => cacheEvolves_mem hev q hq⟩

/-- C8 witness: refreshing a present path keeps the keys; inserting an
absent one appends; uniqueness holds afterwards. -/
theorem C8_cache_invariant_witness :
    ((⟨"d", "b", "chd"⟩ : FPath) ∉
        cacheKeys [((⟨"d", "a", "chd"⟩ : FPath), (⟨5⟩ : ChdHeader))] ∧
      updateCache [((⟨"d", "a", "chd"⟩ : FPath), (⟨5⟩ : ChdHeader))]
          ⟨"d", "b", "chd"⟩ ⟨7⟩ =
        [((⟨"d", "a", "chd"⟩ : FPath), (⟨5⟩ : ChdHeader))] ++
          [(⟨"d", "b", "chd"⟩, ⟨7⟩)]) ∧
    ((⟨"d", "a", "chd"⟩ : FPath) ∈
        cacheKeys [((⟨"d", "a", "chd"⟩ : FPath), (⟨5⟩ : ChdHeader))] ∧
      cacheKeys (updateCache [((⟨"d", "a", "chd"⟩ : FPath), (⟨5⟩ : ChdHeader))]
          ⟨"d", "a", "chd"⟩ ⟨7⟩) =
        cacheKeys [((⟨"d", "a", "chd"⟩ : FPath), (⟨5⟩ : ChdHeader))]) :=
  ⟨⟨by decide,
      (C8_cache_invariant [(⟨"d", "a", "chd"⟩, ⟨5⟩)] ⟨"d", "b", "chd"⟩ ⟨7⟩).1
        (by decide)⟩,
    ⟨by decide,
      (C8_cache_invariant [(⟨"d", "a", "chd"⟩, ⟨5⟩)] ⟨"d", "a", "chd"⟩
          ⟨7⟩).2.1 (by decide)⟩⟩

/-- Calls `Precache2` makes on the `ProgressCallback` sink, in order. -/
inductive PEvent where
  | setRange (n : Nat)
  | setValue (n : Nat)
deriving Repr, DecidableEq

/-- Engine-side outcome of `chd_precache_progress` as `Precache2`
distinguishes it: success, `CHDERR_CANCELLED`, or any other error. -/
inductive ChdPrecacheErr where
  | none
  | cancelled
  | readError
deriving Repr, DecidableEq

/-- Environment for `Precache2`: whether
`CheckAvailableMemoryForPrecaching` passes, the `(pos, total)` points at
which the engine invokes the progress callback, whether the engine read
itself fails after all callbacks, and the sink's `IsCancelled` answer at
the k-th callback invocation. -/
structure PrecacheEnv where
  memOk : Bool
  points : List (Nat × Nat)
  readFails : Bool
  cancelledAt : Nat → Bool

/-- The percentage computed inside `Precache2`'s callback lambda:
`(pos * 100) / total`, clamped by `std::min<u32>(percent, 100)`. -/
def precachePercent (pos total : Nat) : Nat :=
  min (pos * 100 / total) 100

/-- Modelled from the spec: `chd_precache_progress` (the libchdr engine,
whose source is outside this repository's src tree) invokes the caller's
progress callback at a sequence of `(pos, total)` points and, per the
spec, "the callback's return value is the caller's cancellation signal —
returning cancelled aborts the precache"; it then surfaces
`CHDERR_CANCELLED`.  The callback body is `Precache2`'s lambda: report
the clamped percentage via `SetProgressValue`, then return
`!IsCancelled()`. -/
def chdPrecacheProgress (env : PrecacheEnv) :
    List (Nat × Nat) → Nat → List PEvent × ChdPrecacheErr
  | [], _ => ([], if env.readFails then .readError else .none)
  | (pos, total) :: rest, k =>
      if env.cancelledAt k then
        ([PEvent.setValue (precachePercent pos total)], .cancelled)
      else
        let r := chdPrecacheProgress env rest (k + 1)
        (PEvent.setValue (precachePercent pos total) :: r.1, r.2)

/-- Function `ChdFileReader::Precache2`: upfront memory check (whose failure sets
an error), `SetProgressRange(100)`, then the engine precache; on
`CHDERR_CANCELLED` the error string is left unset, on any other engine
failure it is set.  Returns (success, error message, sink events). -/
def Precache2 (env : PrecacheEnv) : Bool × Option String × List PEvent :=
  if !env.memOk then
    (false, some "insufficient memory", [])
  else
    let r := chdPrecacheProgress env env.points 0
    match r.2 with
    | .none => (true, none, PEvent.setRange 100 :: r.1)
    | .cancelled => (false, none, PEvent.setRange 100 :: r.1)
    | .readError =>
        (false, some "Failed to read part of the file.",
          PEvent.setRange 100 :: r.1)

/-- When the sink first reports cancellation at the j-th invocation, the
engine loop stops there: `CHDERR_CANCELLED`, with exactly `j + 1` values
reported. -/
lemma chdPrecacheProgress_cancelled :
    ∀ (env : PrecacheEnv) (pts : List (Nat × Nat)) (k0 j : Nat),
      j < pts.length →
      env.cancelledAt (k0 + j) = true →
      (∀ i, i < j → env.cancelledAt (k0 + i) = false) →
      (chdPrecacheProgress env pts k0).2 = .cancelled ∧
      (chdPrecacheProgress env pts k0).1.length = j + 1 := by
  intro env pts
  induction pts with
  | nil =>
    intro k0 j hj _ _
    simp at hj
  | cons pt rest ih =>
    intro k0 j hj hc hmin
    obtain ⟨pos, total⟩ := pt
    cases j with
    | zero =>
      have hck : env.cancelledAt k0 = true := by simpa using hc
      simp [chdPrecacheProgress, hck]
    | succ j' =>
      have hck : env.cancelledAt k0 = false := by
        simpa using hmin 0 (Nat.succ_pos _)
      have hc' : env.cancelledAt (k0 + 1 + j') = true := by
        have : k0 + 1 + j' = k0 + (j' + 1) := by omega
        rw [this]
        exact hc
      have hmin' : ∀ i, i < j' → env.cancelledAt (k0 + 1 + i) = false := by
        intro i hi
        have : k0 + 1 + i = k0 + (i + 1) := by omega
        rw [this]
        exact hmin (i + 1) (by omega)
      have hj' : j' < rest.length := by simpa using Nat.lt_of_succ_lt_succ hj
      have := ih (k0 + 1) j' hj' hc' hmin'
      simp [chdPrecacheProgress, hck, this.1, this.2]

/-- C9: a sink that reports cancellation at its (k+1)-th callback
invocation makes the precache stop right there (exactly `k + 1` values
after the range event) and return failure with the error string left
unset — distinguished from every other precache failure, which sets a
descriptive error string (as the final conjunct shows for an engine read
failure with no cancellation). -/
theorem C9_precache_cancelled (env : PrecacheEnv) (k : Nat)
    (hmem : env.memOk = true)
    (hk : k < env.points.length)
    (hc : env.cancelledAt k = true)
    (hmin : ∀ j, j < k → env.cancelledAt j = false) :
    (Precache2 env).1 = false ∧
    (Precache2 env).2.1 = none ∧
    (Precache2 env).2.2.length = k + 2 ∧
    (∀ env2 : PrecacheEnv, env2.memOk = true →
      (∀ j, j ∈ List.range env2.points.length → env2.cancelledAt j = false) →
      env2.readFails = true →
      (Precache2 env2).1 = false ∧
      (Precache2 env2).2.1 = some "Failed to read part of the file.") := by
  have hloop := chdPrecacheProgress_cancelled env env.points 0 k hk
    (by simpa using hc) (by intro i hi; simpa using hmin i hi)
  refine ⟨?_, ?_, ?_, ?_⟩
  · simp [Precache2, hmem, hloop.1]
  · simp [Precache2, hmem, hloop.1]
  · simp [Precache2, hmem, hloop.1, hloop.2]
  · intro env2 hmem2 hnc hrf
    have hloop2 : ∀ (pts : List (Nat × Nat)) (k0 : Nat),
        (∀ i, i < pts.length → env2.cancelledAt (k0 + i) = false) →
        (chdPrecacheProgress env2 pts k0).2 = .readError := by
      intro pts
      induction pts with
      | nil =>
        intro k0 _
        simp [chdPrecacheProgress, hrf]
      | cons pt rest ih =>
        intro k0 hnc'
        obtain ⟨pos, total⟩ := pt
        have h0 : env2.cancelledAt k0 = false := by
          simpa using hnc' 0 (Nat.succ_pos _)
        have hrest : ∀ i, i < rest.length →
            env2.cancelledAt (k0 + 1 + i) = false := by
          intro i hi
          have : k0 + 1 + i = k0 + (i + 1) := by omega
          rw [this]
          exact hnc' (i + 1) (by simpa using Nat.succ_lt_succ hi)
        simp [chdPrecacheProgress, h0, ih (k0 + 1) hrest]
    have hend : (chdPrecacheProgress env2 env2.points 0).2 = .readError := by
      apply hloop2
      intro i hi
      simpa using hnc i (by simpa using hi)
    constructor
    · simp [Precache2, hmem2, hend]
    · simp [Precache2, hmem2, hend]

/-- C9 witness: cancellation on the second callback invocation of three;
the run stops after two values, returns no error string; and a
cancellation-free run with a failing read sets the error string. -/
theorem C9_precache_cancelled_witness :
    ((PrecacheEnv.mk true [(1, 4), (2, 4), (3, 4)] false
          (fun k => k == 1)).memOk = true ∧
      1 < (PrecacheEnv.mk true [(1, 4), (2, 4), (3, 4)] false
          (fun k => k == 1)).points.length ∧
      (PrecacheEnv.mk true [(1, 4), (2, 4), (3, 4)] false
          (fun k => k == 1)).cancelledAt 1 = true ∧
      (∀ j, j < 1 → (PrecacheEnv.mk true [(1, 4), (2, 4), (3, 4)] false
          (fun k => k == 1)).cancelledAt j = false)) ∧
    ((Precache2 (PrecacheEnv.mk true [(1, 4), (2, 4), (3, 4)] false
          (fun k => k == 1))).1 = false ∧
      (Precache2 (PrecacheEnv.mk true [(1, 4), (2, 4), (3, 4)] false
          (fun k => k == 1))).2.1 = none ∧
      (Precache2 (PrecacheEnv.mk true [(1, 4), (2, 4), (3, 4)] false
          (fun k => k == 1))).2.2.length = 1 + 2 ∧
      (∀ env2 : PrecacheEnv, env2.memOk = true →
        (∀ j, j ∈ List.range env2.points.length →
          env2.cancelledAt j = false) →
        env2.readFails = true →
        (Precache2 env2).1 = false ∧
        (Precache2 env2).2.1 = some "Failed to read part of the file.")) :=
  ⟨⟨by decide, by decide, by decide, by decide⟩,
    C9_precache_cancelled
      (PrecacheEnv.mk true [(1, 4), (2, 4), (3, 4)] false (fun k => k == 1)) 1
      (by decide) (by decide) (by decide) (by decide)⟩

/-- C10: every value handed to `SetProgressValue` is at most 100 (and at
least 0, being a `Nat`), and the `SetProgressRange 100` event precedes
every value event. -/
theorem C10_progress_values_clamped (env : PrecacheEnv) :
    (∀ v, PEvent.setValue v ∈ (Precache2 env).2.2 → v ≤ 100) ∧
    (∀ i v, (Precache2 env).2.2.get? i = some (.setValue v) →
      ∃ j, j < i ∧ (Precache2 env).2.2.get? j = some (.setRange 100)) := by
  have hvals : ∀ (pts : List (Nat × Nat)) (k : Nat) (v : Nat),
      PEvent.setValue v ∈ (chdPrecacheProgress env pts k).1 → v ≤ 100 := by
    intro pts
    induction pts with
    | nil =>
      intro k v hv
      simp [chdPrecacheProgress] at hv
    | cons pt rest ih =>
      intro k v hv
      obtain ⟨pos, total⟩ := pt
      by_cases hck : env.cancelledAt k = true
      · simp [chdPrecacheProgress, hck] at hv
        rw [hv]
        exact Nat.min_le_right _ _
      · simp only [Bool.not_eq_true] at hck
        simp [chdPrecacheProgress, hck] at hv
        rcases hv with hv | hv
        · rw [hv]
          exact Nat.min_le_right _ _
        · exact ih (k + 1) v hv
  by_cases hmem : env.memOk = true
  · have hshape : ∃ tail, (Precache2 env).2.2 = PEvent.setRange 100 :: tail ∧
        ∀ v, PEvent.setValue v ∈ tail → v ≤ 100 := by
      refine ⟨(chdPrecacheProgress env env.points 0).1, ?_, ?_⟩
      · cases hr : (chdPrecacheProgress env env.points 0).2 <;>
          simp [Precache2, hmem, hr]
      · intro v hv
        exact hvals env.points 0 v hv
    obtain ⟨tail, htail, hbound⟩ := hshape
    constructor
    · intro v hv
      rw [htail] at hv
      rcases List.mem_cons.mp hv with hv | hv
      · exact absurd hv (by simp)
      · exact hbound v hv
    · intro i v hi
      rw [htail] at hi ⊢
      cases i with
      | zero => simp at hi
      | succ i' => exact ⟨0, Nat.succ_pos _, rfl⟩
  · simp only [Bool.not_eq_true] at hmem
    have : (Precache2 env).2.2 = [] := by simp [Precache2, hmem]
    rw [this]
    constructor
    · intro v hv
      simp at hv
    · intro i v hi
      simp at hi

/-- C10 witness: a two-hunk precache reports 50 then 100, both within
range, after the range was set. -/
theorem C10_progress_values_clamped_witness :
    PEvent.setValue 50 ∈
      (Precache2 (PrecacheEnv.mk true [(1, 2), (2, 2)] false
        (fun _ => false))).2.2 ∧
    50 ≤ 100 :=
  ⟨by decide,
    (C10_progress_values_clamped
        (PrecacheEnv.mk true [(1, 2), (2, 2)] false (fun _ => false))).1 50
      (by decide)⟩
